import Mathlib

/-!
Verification development for the Philly Calendar client
(`backend/static/app.js` and `backend/static/sw.js`).

JavaScript strings are modelled as `List Char` (`Str`) at the character
level; the `String` type is used at the data-model boundary (event fields,
filter state, day keys).  JavaScript numbers are modelled as `Int`, with
`Option Int` standing for a number-or-NaN/undefined.  `Date` values are
modelled by `JSDate`: either a valid instant (an integer count of local
seconds) or the invalid date (all fields NaN).
-/

/-- JavaScript strings at the character level. -/
abbrev Str := List Char

/-- The code-unit value of a character (all strings in play are ASCII/BMP,
where UTF-16 code units and code points agree). -/
def charNat (c : Char) : Nat := c.toNat

/-- Decimal digit test, as used by the regex class `\d`. -/
def isDigitC (c : Char) : Bool := decide (48 ≤ charNat c) && decide (charNat c ≤ 57)

/-- ASCII letter test, as used by the regex class `[A-Za-z]`. -/
def isAlphaC (c : Char) : Bool :=
  (decide (65 ≤ charNat c) && decide (charNat c ≤ 90)) ||
  (decide (97 ≤ charNat c) && decide (charNat c ≤ 122))

/-- Whitespace test modelling the regex class `\s` (the ASCII fragment;
the strings this development reasons about only ever contain `' '`). -/
def isWsC (c : Char) : Bool :=
  charNat c == 32 || charNat c == 9 || charNat c == 10 ||
  charNat c == 11 || charNat c == 12 || charNat c == 13

/-- Numeric value of a decimal digit character. -/
def digitVal (c : Char) : Nat := charNat c - 48

/-- Value of a string of decimal digits (most significant first). -/
def digitsVal (l : Str) : Nat := l.foldl (fun a c => a * 10 + digitVal c) 0

/-- Digit character for a value `< 10`. -/
def digitChar10 (n : Nat) : Char := Char.ofNat (48 + n)

/-- Fuel-driven decimal rendering of a natural number (most significant
digit first); the fuel is always sufficient when called via `digitsOf`. -/
def digitsOfAux : Nat → Nat → Str
  | 0, _ => []
  | f + 1, n => if n < 10 then [digitChar10 n]
                else digitsOfAux f (n / 10) ++ [digitChar10 (n % 10)]

/-- Decimal rendering of a natural number, e.g. `2026 ↦ "2026"`. -/
def digitsOf (n : Nat) : Str := digitsOfAux (n + 1) n

/-- Two-digit zero-padded decimal rendering, e.g. `5 ↦ "05"`. -/
def pad2 (n : Nat) : Str := if n < 10 then '0' :: digitsOf n else digitsOf n

/-- `l₁` starts with `l₂`. -/
def startsWithL : Str → Str → Bool
  | [], _ => true
  | _ :: _, [] => false
  | a :: as, b :: bs => a == b && startsWithL as bs

/-- Substring containment, modelling `String.prototype.includes`:
`subOccurs sub s` holds when `sub` occurs contiguously inside `s`. -/
def subOccurs (sub : Str) : Str → Bool
  | [] => sub.isEmpty
  | c :: r => startsWithL sub (c :: r) || subOccurs sub r

/-- `a.includes(b)` on `String`s. -/
def jsIncludes (s sub : String) : Bool := subOccurs sub.data s.data

/-- ASCII lower-casing of one character, modelling the effect of
`String.prototype.toLowerCase` on the ASCII strings in play. -/
def toLowerC (c : Char) : Char :=
  if 65 ≤ charNat c ∧ charNat c ≤ 90 then Char.ofNat (charNat c + 32) else c

/-- `s.toLowerCase()` on `String`s. -/
def jsToLower (s : String) : String := String.mk (s.data.map toLowerC)

/-- `s.trim()` (ASCII whitespace fragment of the JS definition). -/
def jsTrim (s : String) : String :=
  String.mk ((s.data.dropWhile isWsC).reverse.dropWhile isWsC |>.reverse)

/-- Split at every occurrence of the separator character, modelling
`s.split(sep)` for a one-character separator: `"aTb" ↦ ["a","b"]`,
`"T" ↦ ["",""]`. -/
def splitOnChar (c : Char) : Str → List Str
  | [] => [[]]
  | a :: r =>
    if a = c then [] :: splitOnChar c r
    else
      match splitOnChar c r with
      | [] => [[a]]
      | s :: ss => (a :: s) :: ss

/-- Replace the first occurrence of `' '` by `'T'`, modelling
`s.replace(' ', 'T')` (string-pattern `replace` only touches the first
occurrence). -/
def replaceFirstSpaceT : Str → Str
  | [] => []
  | a :: r => if a = ' ' then 'T' :: r else a :: replaceFirstSpaceT r

/-- Delete the first occurrence of `'Z'`, modelling `s.replace('Z', '')`. -/
def removeFirstZ : Str → Str
  | [] => []
  | a :: r => if a = 'Z' then r else a :: removeFirstZ r

/-- `Number(s)` on the integer fragment: leading/trailing ASCII whitespace
is trimmed, the empty string is `0`, an optional sign followed by decimal
digits is its value, and everything else (decimals, hex, exponents, …,
none of which occur in the strings this development reasons about) is
conservatively NaN (`none`). -/
def jsNumber (l : Str) : Option Int :=
  let t := (l.dropWhile isWsC).reverse.dropWhile isWsC |>.reverse
  match t with
  | [] => some 0
  | c :: ds =>
    if c = '-' then
      if ds ≠ [] ∧ ds.all isDigitC then some (-(digitsVal ds : Int)) else none
    else if c = '+' then
      if ds ≠ [] ∧ ds.all isDigitC then some ((digitsVal ds : Int)) else none
    else if (c :: ds).all isDigitC then some ((digitsVal (c :: ds) : Int)) else none

/-- The digit-run stage of `parseInt`: value of the maximal leading run
of decimal digits, NaN (`none`) when there is none. -/
def parseIntCore (u : Str) : Option Int :=
  let ds := u.takeWhile isDigitC
  if ds = [] then none else some ((digitsVal ds : Int))

/-- `parseInt(s, 10)`: trims leading whitespace, then an optional sign and
a maximal run of digits; NaN (`none`) when no digit is found.  Trailing
garbage is ignored, which is the one behavioural difference from
`Number`. -/
def parseIntJS (l : Str) : Option Int :=
  match l.dropWhile isWsC with
  | [] => none
  | c :: r =>
    if c = '-' then (parseIntCore r).map (fun v => -v)
    else if c = '+' then parseIntCore r
    else parseIntCore (c :: r)

/-! ## The `Date` model

A valid JS `Date` constructed from local wall-clock fields is represented
by its count of local seconds relative to 1970-01-01 00:00:00 local
(milliseconds are always zero in this code).  Field extraction uses the
standard proleptic-Gregorian civil-calendar conversion, which is exactly
the normalisation `new Date(y, m, d, h, mi, s)` performs (out-of-range
fields roll over). -/

/-- Days from 1970-01-01 of the civil date `(y, m, d)` with `m ∈ [1,12]`
(proleptic Gregorian; the standard `days_from_civil` algorithm). -/
def daysFromCivil (y : Int) (m : Int) (d : Int) : Int :=
  let y' := if m ≤ 2 then y - 1 else y
  let era := y'.fdiv 400
  let yoe := y' - era * 400
  let mp := if 2 < m then m - 3 else m + 9
  let doy := (153 * mp + 2).fdiv 5 + d - 1
  let doe := yoe * 365 + yoe.fdiv 4 - yoe.fdiv 100 + doy
  era * 146097 + doe - 719468

/-- Inverse of `daysFromCivil`: the civil `(y, m, d)`, `m ∈ [1,12]`, of a
day count from 1970-01-01 (the standard `civil_from_days` algorithm). -/
def civilFromDays (z : Int) : Int × Int × Int :=
  let z := z + 719468
  let era := z.fdiv 146097
  let doe := z - era * 146097
  let yoe := (doe - doe.fdiv 1460 + doe.fdiv 36524 - doe.fdiv 146096).fdiv 365
  let y := yoe + era * 400
  let doy := doe - (365 * yoe + yoe.fdiv 4 - yoe.fdiv 100)
  let mp := (5 * doy + 2).fdiv 153
  let d := doy - (153 * mp + 2).fdiv 5 + 1
  let m := if mp < 10 then mp + 3 else mp - 9
  (if m ≤ 2 then y + 1 else y, m, d)

/-- A JS `Date`: a valid local instant (in seconds) or the invalid date. -/
inductive JSDate where
  | valid (t : Int)
  | invalid
deriving DecidableEq, Repr

/-- Local seconds of `new Date(y, m, d, h, mi, s)` (with `m` 0-based),
including the rolling normalisation of an out-of-range month and the
two-digit-year adjustment (`0 ≤ y ≤ 99` means `1900 + y`). -/
def mkDateSecs (y m d h mi s : Int) : Int :=
  let y := if 0 ≤ y ∧ y ≤ 99 then y + 1900 else y
  let ym := y + m.fdiv 12
  let mn := m.fmod 12
  (daysFromCivil ym (mn + 1) 1 + (d - 1)) * 86400 + h * 3600 + mi * 60 + s

/-- `new Date(y, m, d, h, mi, s)` where each argument may be NaN/undefined
(`none`); any such argument makes the result the invalid date. -/
def mkJSDate (y m d h mi s : Option Int) : JSDate :=
  match y, m, d, h, mi, s with
  | some y, some m, some d, some h, some mi, some s =>
    JSDate.valid (mkDateSecs y m d h mi s)
  | _, _, _, _, _, _ => JSDate.invalid

/-- `d.getFullYear()` (NaN on the invalid date). -/
def getFullYearO : JSDate → Option Int
  | JSDate.invalid => none
  | JSDate.valid t => some (civilFromDays (t.fdiv 86400)).1

/-- `d.getMonth()`, 0-based (NaN on the invalid date). -/
def getMonthO : JSDate → Option Int
  | JSDate.invalid => none
  | JSDate.valid t => some ((civilFromDays (t.fdiv 86400)).2.1 - 1)

/-- `d.getDate()` (NaN on the invalid date). -/
def getDateO : JSDate → Option Int
  | JSDate.invalid => none
  | JSDate.valid t => some (civilFromDays (t.fdiv 86400)).2.2

/-- `d.getHours()` (NaN on the invalid date). -/
def getHoursO : JSDate → Option Int
  | JSDate.invalid => none
  | JSDate.valid t => some ((t.fmod 86400).fdiv 3600)

/-- `d.getMinutes()` (NaN on the invalid date). -/
def getMinutesO : JSDate → Option Int
  | JSDate.invalid => none
  | JSDate.valid t => some (((t.fmod 86400).fmod 3600).fdiv 60)

/-- `d.getSeconds()` (NaN on the invalid date). -/
def getSecondsO : JSDate → Option Int
  | JSDate.invalid => none
  | JSDate.valid t => some ((t.fmod 86400).fmod 60)

/-- The ambient browser facilities the client code uses: the current time
(`new Date()`), the built-in `Date`-string parser (`new Date(string)`,
reached only on one degenerate branch of `parseLocalDate`), and the
locale formatter `toLocaleTimeString` used when rendering rows. -/
structure JSEnv where
  now : JSDate
  dateParse : String → JSDate
  formatTime : JSDate → String

/-- `x || 0` applied to a JS number that may be NaN/undefined: NaN,
undefined and `0` are falsy and give `0`; any other number is itself. -/
def jsOrZero : Option Int → Int
  | none => 0
  | some v => v

/-- The month-abbreviation table of `parseLocalDate`
(`{ Jan:0, Feb:1, …, Dec:11 }`). -/
def monthsLookup (s : String) : Option Int :=
  if s = "Jan" then some 0 else if s = "Feb" then some 1
  else if s = "Mar" then some 2 else if s = "Apr" then some 3
  else if s = "May" then some 4 else if s = "Jun" then some 5
  else if s = "Jul" then some 6 else if s = "Aug" then some 7
  else if s = "Sep" then some 8 else if s = "Oct" then some 9
  else if s = "Nov" then some 10 else if s = "Dec" then some 11
  else none

/-- Consume one-or-more whitespace characters (`\s+`): fails unless the
head is whitespace, then drops the maximal whitespace run. -/
def eatWs : Str → Option Str
  | [] => none
  | c :: r => if isWsC c then some (r.dropWhile isWsC) else none

/-- Matcher for the RFC-2822-style pattern of `parseLocalDate`,

`^[A-Za-z]{3},\s+(\d{1,2})\s+([A-Za-z]{3})\s+(\d{4})\s+(\d{2}):(\d{2}):(\d{2})\s+GMT$`,

returning the six captured groups.  Greedy digit/whitespace runs are
equivalent to the regex here because `\d`, `\s`, `[A-Za-z]` and the
literal separators are pairwise disjoint, so the regex admits no
backtracking on these patterns. -/
def rfcMatch (l : Str) : Option (Str × Str × Str × Str × Str × Str) :=
  match l with
  | a :: b :: c :: comma :: r0 =>
    if comma = ',' ∧ isAlphaC a = true ∧ isAlphaC b = true ∧ isAlphaC c = true then
      match eatWs r0 with
      | none => none
      | some r1 =>
        let dds := r1.takeWhile isDigitC
        if dds.length = 1 ∨ dds.length = 2 then
          match eatWs (r1.dropWhile isDigitC) with
          | some (m1 :: m2 :: m3 :: r3) =>
            if isAlphaC m1 = true ∧ isAlphaC m2 = true ∧ isAlphaC m3 = true then
              match eatWs r3 with
              | none => none
              | some r4 =>
                let yds := r4.takeWhile isDigitC
                if yds.length = 4 then
                  match eatWs (r4.dropWhile isDigitC) with
                  | none => none
                  | some r6 =>
                    let hds := r6.takeWhile isDigitC
                    match r6.dropWhile isDigitC with
                    | colon1 :: r7 =>
                      if colon1 = ':' ∧ hds.length = 2 then
                        let mds := r7.takeWhile isDigitC
                        match r7.dropWhile isDigitC with
                        | colon2 :: r8 =>
                          if colon2 = ':' ∧ mds.length = 2 then
                            let sds := r8.takeWhile isDigitC
                            if sds.length = 2 then
                              match eatWs (r8.dropWhile isDigitC) with
                              | some gmt =>
                                if gmt = ['G', 'M', 'T'] then
                                  some (dds, [m1, m2, m3], yds, hds, mds, sds)
                                else none
                              | none => none
                            else none
                          else none
                        | [] => none
                      else none
                    | [] => none
                else none
            else none
          | _ => none
        else none
    else none
  | _ => none

/-- `parseLocalDate(dateStr)` from `app.js`: empty input returns the
current time; an RFC-2822-style string is decomposed into its literal
fields and rebuilt as a local time (the `GMT` suffix ignored); otherwise
the string is cleaned (`replace(' ','T').split('+')[0].replace('Z','')`)
and parsed as ISO-like local fields.  If the cleaned string has an empty
date part the code falls back to `new Date(dateStr)` (`env.dateParse`). -/
def parseLocalDate (env : JSEnv) (dateStr : String) : JSDate :=
  if dateStr = "" then env.now
  else
    match rfcMatch dateStr.data with
    | some (dds, mon, yds, hds, mds, sds) =>
      let day := parseIntJS dds
      let month := monthsLookup (String.mk mon)
      let year := parseIntJS yds
      let hour := parseIntJS hds
      let min := parseIntJS mds
      let sec := parseIntJS sds
      mkJSDate year month day hour min sec
    | none =>
      let clean := removeFirstZ (((splitOnChar '+' (replaceFirstSpaceT dateStr.data)).headD []))
      let parts := splitOnChar 'T' clean
      let datePart := parts.headD []
      let timePart := parts[1]?
      if datePart = [] then env.dateParse dateStr
      else
        let dnums := (splitOnChar '-' datePart).map jsNumber
        let year := (dnums[0]?).getD none
        let month := (dnums[1]?).getD none
        let day := (dnums[2]?).getD none
        match timePart with
        | some tp =>
          let tnums := (splitOnChar ':' tp).map jsNumber
          let hour := (tnums[0]?).getD none
          let minute := (tnums[1]?).getD none
          let second := (tnums[2]?).getD none
          mkJSDate year (month.map (· - 1)) day
            (some (jsOrZero hour)) (some (jsOrZero minute)) (some (jsOrZero second))
        | none => mkJSDate year (month.map (· - 1)) day (some 0) (some 0) (some 0)

/-! ## Event store and filter pipeline (`app.js` §Filters) -/

/-- An event as consumed by the client.  Fields that the code guards with
`|| ''` may be `null` on the wire; `null` is modelled as the empty
string, which the guards make behaviourally identical. -/
structure Event where
  id : Nat
  title : String
  description : String
  location : String
  category : String
  price : String
  source : String
  source_url : String
  start_date : String
  end_date : String
  registration_deadline : String
deriving DecidableEq, Repr

/-- The five filter axes (`currentCategory`, `currentMonth`,
`currentSource`, `currentNeighborhood`, and the search box contents). -/
structure FilterState where
  category : String
  month : String
  source : String
  neighborhood : String
deriving DecidableEq, Repr

/-- The `NEIGHBORHOOD_KEYWORDS` table: neighbourhood pill label ↦ location
substrings to match.  Own properties of the object literal only
(prototype-inherited keys are below the abstraction level of this
model). -/
def NEIGHBORHOOD_KEYWORDS (n : String) : Option (List String) :=
  if n = "Rittenhouse" then some ["rittenhouse", "sansom", "walnut street"]
  else if n = "Fairmount Park" then
    some ["fairmount", "kelly drive", "west river drive", "schuylkill", "wissahickon"]
  else if n = "Old City" then some ["old city", "independence", "2nd st", "old city arts"]
  else if n = "Northern Liberties" then some ["northern liberties", "liberty"]
  else if n = "Queen Village" then some ["queen village", "south street"]
  else if n = "Graduate Hospital" then some ["graduate hospital"]
  else if n = "Kensington" then some ["kensington"]
  else if n = "Fishtown" then some ["fishtown", "frankford ave", "johnny brenda"]
  else if n = "Manayunk" then some ["manayunk"]
  else if n = "Brewerytown" then some ["brewerytown", "yards brewing"]
  else if n = "Point Breeze" then some ["point breeze", "passyunk", "grays ferry"]
  else if n = "Chestnut Hill" then some ["chestnut hill"]
  else if n = "West Philly" then
    some ["west philly", "clark park", "43rd", "university of pennsylvania", "franklin field"]
  else if n = "Passyunk" then some ["passyunk", "east passyunk"]
  else none

/-- `String(n)` for a JS number that may be NaN: `none ↦ "NaN"`. -/
def numToStr : Option Int → Str
  | none => "NaN".data
  | some n => if n < 0 then '-' :: digitsOf n.natAbs else digitsOf n.natAbs

/-- `s.padStart(2, '0')`. -/
def padStart2 (l : Str) : Str :=
  if l.length < 2 then List.replicate (2 - l.length) '0' ++ l else l

/-- The `YYYY-MM` key of an event,
`` `${d.getFullYear()}-${String(d.getMonth() + 1).padStart(2, '0')}` ``
for `d = parseLocalDate(event.start_date)`. -/
def eventMonthYear (env : JSEnv) (e : Event) : String :=
  let d := parseLocalDate env e.start_date
  String.mk (numToStr (getFullYearO d) ++ '-' :: padStart2 (numToStr ((getMonthO d).map (· + 1))))

/-- `matchesCategory` of `applyFilters`/`handleSearch`. -/
def matchesCategory (st : FilterState) (e : Event) : Bool :=
  st.category == "all" || e.category == st.category

/-- `matchesMonth` of `applyFilters`/`handleSearch`. -/
def matchesMonth (env : JSEnv) (st : FilterState) (e : Event) : Bool :=
  st.month == "all" || eventMonthYear env e == st.month

/-- `matchesSource` of `applyFilters`/`handleSearch`:
`currentSource === 'all' || (event.source || '').trim() === currentSource`. -/
def matchesSource (st : FilterState) (e : Event) : Bool :=
  st.source == "all" || jsTrim e.source == st.source

/-- `matchesNeighborhood` of `applyFilters`/`handleSearch`: the event's
lower-cased location must contain one of the keywords of the selected
pill; a name with no table entry gets the empty keyword list. -/
def matchesNeighborhood (st : FilterState) (e : Event) : Bool :=
  st.neighborhood == "all" ||
    ((NEIGHBORHOOD_KEYWORDS st.neighborhood).getD []).any
      (fun kw => jsIncludes (jsToLower e.location) kw)

/-- `matchesSearch` of `handleSearch`, for the already-lower-cased query. -/
def matchesSearch (q : String) (e : Event) : Bool :=
  q == "" ||
    jsIncludes (jsToLower e.title) q ||
    jsIncludes (jsToLower e.description) q ||
    jsIncludes (jsToLower e.location) q

/-- `applyFilters()`: recompute `filteredEvents` from `allEvents` as the
conjunction of the four non-search predicates. -/
def applyFilters (env : JSEnv) (st : FilterState) (events : List Event) : List Event :=
  events.filter (fun e =>
    matchesCategory st e && matchesMonth env st e && matchesSource st e &&
    matchesNeighborhood st e)

/-- `handleSearch(e)`: recompute `filteredEvents` with the search
predicate added; `rawQuery` is the input-box value, lower-cased before
matching. -/
def handleSearch (env : JSEnv) (st : FilterState) (rawQuery : String)
    (events : List Event) : List Event :=
  let query := jsToLower rawQuery
  events.filter (fun e =>
    matchesCategory st e && matchesMonth env st e && matchesSource st e &&
    matchesNeighborhood st e && matchesSearch query e)

/-! ## Day-grouping renderer (`renderGroupedByDay`) -/

/-- The `YYYY-MM-DD` bucket key of an event,
`` `${d.getFullYear()}-${…getMonth()+1…}-${…getDate()…}` ``. -/
def dayKey (env : JSEnv) (e : Event) : String :=
  let d := parseLocalDate env e.start_date
  String.mk (numToStr (getFullYearO d) ++
    '-' :: padStart2 (numToStr ((getMonthO d).map (· + 1))) ++
    '-' :: padStart2 (numToStr (getDateO d)))

/-- Association-list lookup modelling `byDay[key]` (`undefined ↦ none`). -/
def lookupDay (k : String) : List (String × List (Nat × Event)) → Option (List (Nat × Event))
  | [] => none
  | (k', v) :: r => if k' = k then some v else lookupDay k r

/-- `byDay[key].push(p)`, creating the entry when absent. -/
def pushDay (k : String) (p : Nat × Event) :
    List (String × List (Nat × Event)) → List (String × List (Nat × Event))
  | [] => [(k, [p])]
  | (k', v) :: r => if k' = k then (k', v ++ [p]) :: r else (k', v) :: pushDay k p r

/-- The accumulating state of the `filteredEvents.forEach` loop of
`renderGroupedByDay`: the `byDay` map and the `dayOrder` array. -/
structure DayAcc where
  byDay : List (String × List (Nat × Event))
  dayOrder : List String
deriving Repr

/-- One iteration of the `forEach` loop: compute the key; on first sight
(`!byDay[key]`) create the bucket and record the key in `dayOrder`;
either way push the `(event, index)` pair onto its bucket. -/
def stepDay (env : JSEnv) (acc : DayAcc) (p : Nat × Event) : DayAcc :=
  let k := dayKey env p.2
  match lookupDay k acc.byDay with
  | none => { byDay := pushDay k p acc.byDay, dayOrder := acc.dayOrder ++ [k] }
  | some _ => { byDay := pushDay k p acc.byDay, dayOrder := acc.dayOrder }

/-- The `byDay`/`dayOrder` state after the `forEach` loop over the
filtered events (`enum` supplies the `(index, event)` pairs, which the
model carries as `(index, event)` with the index first). -/
def buildDays (env : JSEnv) (events : List Event) : DayAcc :=
  events.enum.foldl (stepDay env) ⟨[], []⟩

/-- The grouped view `renderGroupedByDay` renders: `dayOrder.sort()`
(JS default sort = lexicographic code-unit order, which on these
ASCII keys is the `String` linear order; insertion sort produces the
same — unique — sorted arrangement of the duplicate-free key list),
each key paired with its bucket `byDay[key]`. -/
def groupedByDay (env : JSEnv) (events : List Event) :
    List (String × List (Nat × Event)) :=
  let acc := buildDays env events
  (List.insertionSort (· ≤ ·) acc.dayOrder).map (fun k => (k, (lookupDay k acc.byDay).getD []))

/-! ## Event row rendering (`createEventRow`) -/

/-- `escapeHtml(str)`: the chained global replaces of `& < > " '` are
equivalent to this single character-wise expansion, because no
replacement re-examines earlier output and none of the inserted entities
contain a character a later pass rewrites beyond the already-processed
`&`. -/
def escapeHtml (s : String) : String :=
  String.mk (s.data.flatMap (fun c =>
    if c = '&' then "&amp;".data
    else if c = '<' then "&lt;".data
    else if c = '>' then "&gt;".data
    else if c = '"' then "&quot;".data
    else if c = '\'' then "&#39;".data
    else [c]))

/-- `hasTime` of `createEventRow`:
`startDate.getHours() !== 0 || startDate.getMinutes() !== 0` (on the
invalid date both getters are NaN, and `NaN !== 0` is `true`). -/
def hasTimeB (d : JSDate) : Bool :=
  !(getHoursO d == some 0) || !(getMinutesO d == some 0)

/-- The time-column markup of one event row: the formatted local start
time, or the `Time TBD` label when `hasTime` is false.  (`timeStr` is
`''` in the TBD branch exactly as in the source; it is unused there.) -/
def eventTimeCol (env : JSEnv) (e : Event) : String :=
  let startDate := parseLocalDate env e.start_date
  let timeStr := if hasTimeB startDate then env.formatTime startDate else ""
  if hasTimeB startDate then
    "<span class=\"event-time\">" ++ escapeHtml timeStr ++ "</span>"
  else
    "<span class=\"event-time-tbd\">Time TBD</span>"

/-- The `Time TBD` span, for stating when a row shows no time. -/
def timeTbdHtml : String := "<span class=\"event-time-tbd\">Time TBD</span>"

/-! ## Save-state reconciler (`bookmarks`, `saves`, `onLoginSuccess`) -/

/-- An authenticated user. -/
structure User where
  id : Nat
  email : String
  display_name : Option String
deriving DecidableEq, Repr

/-- The client-side persistence state: `bookmarkedIds` (a JS `Set`,
modelled as its duplicate-free insertion-ordered element list),
`localBookmarks` (the `localStorage` mirror written by `saveBookmarks`),
`currentUser`, and `savedEventIds` (the server-save mirror). -/
structure ClientState where
  bookmarkedIds : List Nat
  localBookmarks : List Nat
  currentUser : Option User
  savedEventIds : List Nat
deriving DecidableEq, Repr

/-- `toggleBookmark(eventId)`: delete the id when present, add it when
absent (a JS `Set` appends new elements in insertion order), then
`saveBookmarks()` rewrites the `localStorage` mirror from the set. -/
def toggleBookmark (st : ClientState) (eventId : Nat) : ClientState :=
  if st.bookmarkedIds.contains eventId then
    let b := st.bookmarkedIds.erase eventId
    { st with bookmarkedIds := b, localBookmarks := b }
  else
    let b := st.bookmarkedIds ++ [eventId]
    { st with bookmarkedIds := b, localBookmarks := b }

/-- Outcome of one network request: it either throws (`netError`,
caught by the surrounding `try`/`catch`) or resolves to a response whose
parsed body has the given `success` flag. -/
inductive NetResult where
  | ok (success : Bool)
  | netError
deriving DecidableEq, Repr

/-- The migration loop of `onLoginSuccess`: one `POST /profile/saves`
per bookmarked id; the response is never read and a thrown error is
swallowed by the empty `catch`, so the request log is the id list itself
whatever the outcomes. -/
def migrateBookmarks (outcome : Nat → NetResult) : List Nat → List Nat
  | [] => []
  | i :: rest =>
    (match outcome i with
     | NetResult.ok _ => [i]
     | NetResult.netError => [i]) ++ migrateBookmarks outcome rest

/-- Result of `onLoginSuccess`: the new client state plus the ids that
were POSTed to `/profile/saves` during migration. -/
structure LoginResult where
  state : ClientState
  requests : List Nat
deriving DecidableEq, Repr

/-- `onLoginSuccess(user)`: set `currentUser`; if any anonymous bookmarks
exist, POST each one individually (`migrateBookmarks`), then reset
`bookmarkedIds` to the empty set and `saveBookmarks()` the empty mirror —
unconditionally; finally `loadUserSaves()` replaces `savedEventIds` with
the server list when that GET succeeds (and leaves it unchanged when it
fails). -/
def onLoginSuccess (st : ClientState) (user : User) (outcome : Nat → NetResult)
    (getSaves : Option (List Nat)) : LoginResult :=
  let st := { st with currentUser := some user }
  let (st, reqs) :=
    if st.bookmarkedIds.length > 0 then
      let reqs := migrateBookmarks outcome st.bookmarkedIds
      ({ st with bookmarkedIds := [], localBookmarks := [] }, reqs)
    else (st, [])
  let st :=
    match getSaves with
    | some ids => { st with savedEventIds := ids.dedup }
    | none => st
  { state := st, requests := reqs }

/-- `toggleSave(eventId)`: anonymous users fall back to `toggleBookmark`;
an authenticated user issues a `DELETE` (when the id is in the local save
mirror) or a `POST` (when it is not) and the mirror is mutated only when
the response resolves with `success: true`; a thrown request leaves all
state unchanged (the `catch` only shows a toast), and a `success: false`
response is silently ignored. -/
def toggleSave (st : ClientState) (eventId : Nat)
    (delResp : NetResult) (postResp : NetResult) : ClientState :=
  match st.currentUser with
  | none => toggleBookmark st eventId
  | some _ =>
    if st.savedEventIds.contains eventId then
      match delResp with
      | NetResult.ok true => { st with savedEventIds := st.savedEventIds.erase eventId }
      | NetResult.ok false => st
      | NetResult.netError => st
    else
      match postResp with
      | NetResult.ok true => { st with savedEventIds := st.savedEventIds ++ [eventId] }
      | NetResult.ok false => st
      | NetResult.netError => st

/-! ## Offline cache worker (`sw.js`) -/

/-- `CACHE_NAME` of `sw.js`. -/
def CACHE_NAME : String := "philly-calendar-v14"

/-- The cache storage: named caches in creation order, each a list of
`(request URL, response)` entries; responses are abstract (`α`). -/
structure SWState (α : Type) where
  caches : List (String × List (String × α))
deriving Repr

/-- `caches.match(request)`: search every cache, in order, for an entry
for the request. -/
def cachesMatch {α : Type} (url : String) : List (String × List (String × α)) → Option α
  | [] => none
  | (_, entries) :: r =>
    match entries.lookup url with
    | some v => some v
    | none => cachesMatch url r

/-- `cache.put(request, response)` on one cache's entry list: overwrite
the entry for the URL, appending when absent. -/
def cachePutEntries {α : Type} (url : String) (resp : α) :
    List (String × α) → List (String × α)
  | [] => [(url, resp)]
  | (u, v) :: r => if u = url then (u, resp) :: r else (u, v) :: cachePutEntries url resp r

/-- `caches.open(CACHE_NAME)` followed by `cache.put`: write into the
named cache, creating it (at the end of the storage) when absent. -/
def cachePut {α : Type} (name url : String) (resp : α) :
    List (String × List (String × α)) → List (String × List (String × α))
  | [] => [(name, [(url, resp)])]
  | (n, entries) :: r =>
    if n = name then (n, cachePutEntries url resp entries) :: r
    else (n, entries) :: cachePut name url resp r

/-- The `fetch` handler of `sw.js`: serve the cached response when one
exists (anywhere in cache storage, no write); otherwise take the network
response, and write it into the current cache `CACHE_NAME` exactly when
the request URL contains `/events`. -/
def handleFetch {α : Type} (st : SWState α) (url : String) (netResp : α) : α × SWState α :=
  match cachesMatch url st.caches with
  | some cached => (cached, st)
  | none =>
    if jsIncludes url "/events" then
      (netResp, ⟨cachePut CACHE_NAME url netResp st.caches⟩)
    else
      (netResp, st)

/-! ## Wire encodings of a timestamp (the spec's two formats)

These two renderings are spec-side artefacts: they spell out, following
the specification's words, the RFC-2822-style and ISO wire encodings of
one logical timestamp `(Y, M, D, h, m, s)`, to be fed to
`parseLocalDate`. -/

/-- The twelve month abbreviations, in the order of the `months` table of
`parseLocalDate`. -/
def monthAbbrev : Fin 12 → Str
  | ⟨0, _⟩ => "Jan".data
  | ⟨1, _⟩ => "Feb".data
  | ⟨2, _⟩ => "Mar".data
  | ⟨3, _⟩ => "Apr".data
  | ⟨4, _⟩ => "May".data
  | ⟨5, _⟩ => "Jun".data
  | ⟨6, _⟩ => "Jul".data
  | ⟨7, _⟩ => "Aug".data
  | ⟨8, _⟩ => "Sep".data
  | ⟨9, _⟩ => "Oct".data
  | ⟨10, _⟩ => "Nov".data
  | ⟨11, _⟩ => "Dec".data

/-- Modelled from the spec: the pseudo-RFC-2822 wire encoding
`"Ddd, D Mon YYYY HH:MM:SS GMT"` of the timestamp whose day-of-month is
`D`, month index `i` (0-based), year `Y` and time `h:mi:s`, with an
arbitrary three-letter weekday `[a, b, c]`. -/
def rfcEncode (a b c : Char) (D : Nat) (i : Fin 12) (Y h mi s : Nat) : String :=
  String.mk ([a, b, c] ++ ',' :: ' ' ::
    (digitsOf D ++ ' ' :: (monthAbbrev i ++ ' ' ::
      (digitsOf Y ++ ' ' :: (pad2 h ++ ':' :: (pad2 mi ++ ':' ::
        (pad2 s ++ [' ', 'G', 'M', 'T'])))))))

/-- Modelled from the spec: the ISO wire encoding `"YYYY-MM-DDTHH:MM:SS"`
of the same timestamp (month rendered 1-based and zero-padded). -/
def isoEncode (Y : Nat) (i : Fin 12) (D h mi s : Nat) : String :=
  String.mk (digitsOf Y ++ '-' ::
    (pad2 (i.val + 1) ++ '-' :: (pad2 D ++ 'T' ::
      (pad2 h ++ ':' :: (pad2 mi ++ ':' :: pad2 s)))))

/-! ## Concrete sample data for witnesses -/

/-- A concrete browser environment for witness instances. -/
def sampleEnv : JSEnv :=
  { now := JSDate.valid 0
    dateParse := fun _ => JSDate.invalid
    formatTime := fun _ => "7:30 PM" }

/-- A concrete event (the spec's scenario event). -/
def sampleEvent : Event :=
  { id := 1, title := "March Music", description := "an event",
    location := "Johnny Brenda's, Frankford Ave", category := "music",
    price := "", source := "PhillyFun", source_url := "",
    start_date := "2026-03-01T00:00:00", end_date := "",
    registration_deadline := "" }

/-- A concrete event with a non-midnight start time. -/
def sampleEvent2 : Event :=
  { id := 2, title := "Evening Run", description := "a run",
    location := "Kelly Drive", category := "running",
    price := "", source := "RunPhilly", source_url := "",
    start_date := "Wed, 18 Feb 2026 19:30:00 GMT", end_date := "",
    registration_deadline := "" }

/-- A concrete user for witness instances. -/
def sampleUser : User := { id := 7, email := "who@example.com", display_name := none }

/-- The loop invariant of `renderGroupedByDay`'s `forEach`: after
processing a prefix of the `(index, event)` pairs, every key's bucket is
exactly the filter of the processed pairs by that key (absent when that
filter is empty), and `dayOrder` lists exactly the present keys, without
duplicates. -/
def DayInv (env : JSEnv) (processed : List (Nat × Event)) (acc : DayAcc) : Prop :=
  (∀ k, lookupDay k acc.byDay =
      (if processed.filter (fun p => dayKey env p.2 == k) = [] then none
       else some (processed.filter (fun p => dayKey env p.2 == k)))) ∧
  acc.dayOrder.Nodup ∧
  (∀ k, k ∈ acc.dayOrder ↔ lookupDay k acc.byDay ≠ none)

/-- C1: for every event list and every filter state, an event is in the
filtered output iff it independently satisfies every active predicate:
category equality (or "all"), `YYYY-MM` month equality against the month
derived from `parseLocalDate(start_date)` (or "all"), exact trimmed
source match (or "all"), neighborhood keyword containment (or "all"),
and — when filtering is triggered via search — the lower-cased query is
a substring of title, description or location (or the query is empty). -/
theorem filter_pipeline_iff (env : JSEnv) (st : FilterState) (rawQuery : String)
    (events : List Event) (e : Event) :
    (e ∈ applyFilters env st events ↔
      e ∈ events ∧
        (st.category = "all" ∨ e.category = st.category) ∧
        (st.month = "all" ∨ eventMonthYear env e = st.month) ∧
        (st.source = "all" ∨ jsTrim e.source = st.source) ∧
        (st.neighborhood = "all" ∨
          ∃ kw ∈ (NEIGHBORHOOD_KEYWORDS st.neighborhood).getD [],
            jsIncludes (jsToLower e.location) kw = true)) ∧
    (e ∈ handleSearch env st rawQuery events ↔
      e ∈ events ∧
        (st.category = "all" ∨ e.category = st.category) ∧
        (st.month = "all" ∨ eventMonthYear env e = st.month) ∧
        (st.source = "all" ∨ jsTrim e.source = st.source) ∧
        (st.neighborhood = "all" ∨
          ∃ kw ∈ (NEIGHBORHOOD_KEYWORDS st.neighborhood).getD [],
            jsIncludes (jsToLower e.location) kw = true) ∧
        (jsToLower rawQuery = "" ∨
          jsIncludes (jsToLower e.title) (jsToLower rawQuery) = true ∨
          jsIncludes (jsToLower e.description) (jsToLower rawQuery) = true ∨
          jsIncludes (jsToLower e.location) (jsToLower rawQuery) = true)) := by
  constructor <;>
    simp [applyFilters, handleSearch, matchesCategory, matchesMonth, matchesSource,
      matchesNeighborhood, matchesSearch, List.mem_filter, List.any_eq_true, and_assoc, or_assoc]

/-- C6: a selected neighborhood that is not "all" and has no entry in
`NEIGHBORHOOD_KEYWORDS` makes the whole filtered output empty; for a
recognized neighborhood an event matches iff its lower-cased location
contains at least one of the neighborhood's keywords. -/
theorem neighborhood_unmatched_empty (env : JSEnv) (st : FilterState)
    (events : List Event) (e : Event) (hall : st.neighborhood ≠ "all") :
    (NEIGHBORHOOD_KEYWORDS st.neighborhood = none → applyFilters env st events = []) ∧
    (∀ kws, NEIGHBORHOOD_KEYWORDS st.neighborhood = some kws →
      (matchesNeighborhood st e = true ↔
        ∃ kw ∈ kws, jsIncludes (jsToLower e.location) kw = true)) := by
  constructor
  · intro hnone
    apply List.filter_eq_nil_iff.mpr
    intro a _
    simp [matchesNeighborhood, hnone, hall]
  · intro kws hsome
    simp [matchesNeighborhood, hsome, hall, List.any_eq_true]

theorem neighborhood_unmatched_empty_witness :
    applyFilters sampleEnv ⟨"all", "all", "all", "Center City"⟩ [sampleEvent] = [] ∧
    matchesNeighborhood ⟨"all", "all", "all", "Fishtown"⟩ sampleEvent = true := by
  constructor
  · exact (neighborhood_unmatched_empty sampleEnv _ [sampleEvent] sampleEvent
      (by decide)).1 (by decide)
  · exact ((neighborhood_unmatched_empty sampleEnv ⟨"all", "all", "all", "Fishtown"⟩
      [] sampleEvent (by decide)).2
        ["fishtown", "frankford ave", "johnny brenda"] (by decide)).mpr
      ⟨"frankford ave", by decide, by decide⟩

/-- C7 counterexample: the input `"hello"` is nonempty and parses under
neither wire encoding, yet `parseLocalDate` returns the invalid date
(its field parse yields NaN), not the current time. -/
theorem parseLocalDate_fallback_cex :
    parseLocalDate sampleEnv "hello" = JSDate.invalid ∧
    parseLocalDate sampleEnv "hello" ≠ sampleEnv.now := by
  decide

/-- C7 (amended): `parseLocalDate` is total (never throws) and returns
the current time for the empty input; but a nonempty input that matches
neither encoding can produce the invalid date (NaN fields) instead of
the current time — e.g. `"hello"`. -/
theorem parseLocalDate_fallback (env : JSEnv) :
    parseLocalDate env "" = env.now ∧
    parseLocalDate env "hello" = JSDate.invalid := by
  exact ⟨rfl, rfl⟩

/-- C10: `toggleBookmark(id)` flips the membership of exactly `id`,
leaves every other id's membership unchanged, rewrites the persisted
`localStorage` mirror to match the updated set, and applying it twice
restores the original membership (involution); the other state fields
are untouched. -/
theorem toggleBookmark_spec (st : ClientState) (eventId : Nat)
    (hnd : st.bookmarkedIds.Nodup) :
    ((toggleBookmark st eventId).localBookmarks = (toggleBookmark st eventId).bookmarkedIds) ∧
    (∀ x, x ∈ (toggleBookmark st eventId).bookmarkedIds ↔
      (if x = eventId then x ∉ st.bookmarkedIds else x ∈ st.bookmarkedIds)) ∧
    (∀ x, x ∈ (toggleBookmark (toggleBookmark st eventId) eventId).bookmarkedIds ↔
      x ∈ st.bookmarkedIds) ∧
    ((toggleBookmark st eventId).currentUser = st.currentUser ∧
      (toggleBookmark st eventId).savedEventIds = st.savedEventIds) := by
  by_cases hm : st.bookmarkedIds.contains eventId
  · have hmem : eventId ∈ st.bookmarkedIds := by simpa using hm
    have hnotErase : eventId ∉ st.bookmarkedIds.erase eventId := hnd.not_mem_erase
    have hcontErase : (st.bookmarkedIds.erase eventId).contains eventId = false := by
      simpa using hnotErase
    refine ⟨?_, ?_, ?_, ?_, ?_⟩ <;>
      simp only [toggleBookmark, hm, if_pos, hcontErase, Bool.false_eq_true, if_neg,
        if_true, reduceIte]
    · intro x
      by_cases hx : x = eventId
      · subst hx; simp [hnotErase, hmem]
      · simp [hx, List.mem_erase_of_ne hx]
    · intro x
      by_cases hx : x = eventId
      · subst hx; simp [hmem]
      · simp [hx, List.mem_erase_of_ne hx]
  · have hmem : eventId ∉ st.bookmarkedIds := by simpa using hm
    have hcont2 : (st.bookmarkedIds ++ [eventId]).contains eventId = true := by
      simp
    have herase : (st.bookmarkedIds ++ [eventId]).erase eventId = st.bookmarkedIds := by
      rw [List.erase_append_right _ (by simpa using hmem)]
      simp
    refine ⟨?_, ?_, ?_, ?_, ?_⟩ <;>
      simp only [toggleBookmark, hm, Bool.false_eq_true, if_neg, hcont2, if_true, reduceIte,
        herase]
    · intro x
      by_cases hx : x = eventId
      · subst hx; simp [hmem]
      · simp [hx]
    · intro x; simp

theorem toggleBookmark_spec_witness :
    (2 ∈ (toggleBookmark ⟨[1, 2, 3], [1, 2, 3], none, []⟩ 2).bookmarkedIds ↔
      (2 : Nat) ∉ ([1, 2, 3] : List Nat)) ∧
    (2 ∈ (toggleBookmark (toggleBookmark ⟨[1, 2, 3], [1, 2, 3], none, []⟩ 2) 2).bookmarkedIds ↔
      2 ∈ ([1, 2, 3] : List Nat)) := by
  have h := toggleBookmark_spec ⟨[1, 2, 3], [1, 2, 3], none, []⟩ 2 (by decide)
  exact ⟨by simpa using h.2.1 2, h.2.2.1 2⟩

/-- C5: `toggleSave(eventId)` per identity tier: an anonymous user is
delegated to the purely local `toggleBookmark`; an authenticated user's
local save mirror is mutated (erase when present, append when absent)
only when the corresponding server call resolves with `success: true`,
and is unchanged on a network error or an unsuccessful response, with
the anonymous bookmark state never touched. -/
theorem toggleSave_spec (st : ClientState) (eventId : Nat)
    (delResp postResp : NetResult) :
    (st.currentUser = none →
      toggleSave st eventId delResp postResp = toggleBookmark st eventId) ∧
    (∀ u, st.currentUser = some u →
      ((toggleSave st eventId delResp postResp).bookmarkedIds = st.bookmarkedIds ∧
        (toggleSave st eventId delResp postResp).localBookmarks = st.localBookmarks ∧
        (toggleSave st eventId delResp postResp).currentUser = st.currentUser) ∧
      (eventId ∈ st.savedEventIds →
        (delResp = NetResult.ok true →
          (toggleSave st eventId delResp postResp).savedEventIds =
            st.savedEventIds.erase eventId) ∧
        (delResp ≠ NetResult.ok true →
          (toggleSave st eventId delResp postResp).savedEventIds = st.savedEventIds)) ∧
      (eventId ∉ st.savedEventIds →
        (postResp = NetResult.ok true →
          (toggleSave st eventId delResp postResp).savedEventIds =
            st.savedEventIds ++ [eventId]) ∧
        (postResp ≠ NetResult.ok true →
          (toggleSave st eventId delResp postResp).savedEventIds = st.savedEventIds))) := by
  constructor
  · intro h; simp [toggleSave, h]
  · intro u hu
    refine ⟨?_, ?_, ?_⟩
    · by_cases hm : eventId ∈ st.savedEventIds <;>
        rcases delResp with (_ | _) | _ <;> rcases postResp with (_ | _) | _ <;>
          simp [toggleSave, hu, hm]
    · intro hmem
      constructor
      · intro hd; subst hd; simp [toggleSave, hu, hmem]
      · intro hd
        rcases delResp with success | _
        · rcases success
          · simp [toggleSave, hu, hmem]
          · exact absurd rfl hd
        · simp [toggleSave, hu, hmem]
    · intro hmem
      constructor
      · intro hp; subst hp; simp [toggleSave, hu, hmem]
      · intro hp
        rcases postResp with success | _
        · rcases success
          · simp [toggleSave, hu, hmem]
          · exact absurd rfl hp
        · simp [toggleSave, hu, hmem]

theorem toggleSave_spec_witness :
    (toggleSave ⟨[], [], some sampleUser, [2]⟩ 2 NetResult.netError
        (NetResult.ok true)).savedEventIds = [2] ∧
    (toggleSave ⟨[], [], none, []⟩ 5 NetResult.netError NetResult.netError =
      toggleBookmark ⟨[], [], none, []⟩ 5) := by
  constructor
  · exact (((toggleSave_spec ⟨[], [], some sampleUser, [2]⟩ 2 NetResult.netError
      (NetResult.ok true)).2 sampleUser rfl).2.1 (by decide)).2 (by decide)
  · exact (toggleSave_spec ⟨[], [], none, []⟩ 5 NetResult.netError NetResult.netError).1 rfl

/-- Each bookmarked id is POSTed exactly once, in order, whatever the
individual request outcomes (the responses are never read and thrown
errors are swallowed). -/
theorem migrateBookmarks_eq (outcome : Nat → NetResult) (l : List Nat) :
    migrateBookmarks outcome l = l := by
  induction l with
  | nil => rfl
  | cons i rest ih =>
    rcases h : outcome i <;> simp [migrateBookmarks, h, ih]

/-- C3: on successful authentication, every id in the anonymous bookmark
set is submitted as an individual save request; the result is
independent of the request outcomes (failures are silently dropped, no
retry); and afterwards the anonymous set and its persisted mirror are
cleared unconditionally, however many submissions succeeded — ids whose
submission failed are permanently lost. -/
theorem onLoginSuccess_spec (st : ClientState) (user : User)
    (outcome : Nat → NetResult) (getSaves : Option (List Nat))
    (hmirror : st.localBookmarks = st.bookmarkedIds) :
    (onLoginSuccess st user outcome getSaves).requests = st.bookmarkedIds ∧
    (onLoginSuccess st user outcome getSaves).state.bookmarkedIds = [] ∧
    (onLoginSuccess st user outcome getSaves).state.localBookmarks = [] ∧
    (onLoginSuccess st user outcome getSaves).state.currentUser = some user := by
  by_cases hlen : st.bookmarkedIds.length > 0
  · rcases getSaves with _ | ids <;>
      simp [onLoginSuccess, hlen, migrateBookmarks_eq]
  · have hnil : st.bookmarkedIds = [] := by
      cases h : st.bookmarkedIds with
      | nil => rfl
      | cons a l => rw [h] at hlen; simp at hlen
    rcases getSaves with _ | ids <;>
      simp [onLoginSuccess, hlen, hnil, hmirror.trans hnil]

/-- The spec's migration scenario: bookmarks `{1,2,3}`, the server
rejects the save of id 2 — the set and mirror are cleared anyway and id
2 is lost. -/
theorem onLoginSuccess_spec_witness :
    (onLoginSuccess ⟨[1, 2, 3], [1, 2, 3], none, []⟩ sampleUser
        (fun i => if i = 2 then NetResult.ok false else NetResult.ok true)
        (some [1, 3])).requests = [1, 2, 3] ∧
    (onLoginSuccess ⟨[1, 2, 3], [1, 2, 3], none, []⟩ sampleUser
        (fun i => if i = 2 then NetResult.ok false else NetResult.ok true)
        (some [1, 3])).state.bookmarkedIds = [] ∧
    (onLoginSuccess ⟨[1, 2, 3], [1, 2, 3], none, []⟩ sampleUser
        (fun i => if i = 2 then NetResult.ok false else NetResult.ok true)
        (some [1, 3])).state.localBookmarks = [] := by
  have h := onLoginSuccess_spec ⟨[1, 2, 3], [1, 2, 3], none, []⟩ sampleUser
    (fun i => if i = 2 then NetResult.ok false else NetResult.ok true)
    (some [1, 3]) rfl
  exact ⟨h.1, h.2.1, h.2.2.1⟩

/-- C9: the offline worker serves a cached response when one exists (and
writes nothing); otherwise the response comes from the network, and that
network response is written into the current version's cache iff the
request URL is events-bearing — any other request passes through with
the cache storage unchanged. -/
theorem handleFetch_spec {α : Type} (st : SWState α) (url : String) (netResp : α) :
    (∀ cached, cachesMatch url st.caches = some cached →
      handleFetch st url netResp = (cached, st)) ∧
    (cachesMatch url st.caches = none →
      (handleFetch st url netResp).1 = netResp ∧
      (jsIncludes url "/events" = true →
        (handleFetch st url netResp).2 = ⟨cachePut CACHE_NAME url netResp st.caches⟩) ∧
      (jsIncludes url "/events" = false →
        (handleFetch st url netResp).2 = st)) := by
  constructor
  · intro cached hc; simp [handleFetch, hc]
  · intro hc
    refine ⟨?_, ?_, ?_⟩
    · by_cases he : jsIncludes url "/events" = true <;> simp [handleFetch, hc, he]
    · intro he; simp [handleFetch, hc, he]
    · intro he; simp [handleFetch, hc, he]

theorem handleFetch_spec_witness :
    (handleFetch (⟨[(CACHE_NAME, [("/events/upcoming", 7)])]⟩ : SWState Nat)
        "/events/upcoming" 9 = (7, ⟨[(CACHE_NAME, [("/events/upcoming", 7)])]⟩)) ∧
    ((handleFetch (⟨[]⟩ : SWState Nat) "/events/upcoming" 9).2 =
      ⟨[(CACHE_NAME, [("/events/upcoming", 9)])]⟩) ∧
    ((handleFetch (⟨[]⟩ : SWState Nat) "/static/styles.css" 9).2 = ⟨[]⟩) := by
  refine ⟨?_, ?_, ?_⟩
  · exact (handleFetch_spec (⟨[(CACHE_NAME, [("/events/upcoming", 7)])]⟩ : SWState Nat)
      "/events/upcoming" 9).1 7 (by decide)
  · exact ((handleFetch_spec (⟨[]⟩ : SWState Nat) "/events/upcoming" 9).2 rfl).2.1 (by decide)
  · exact ((handleFetch_spec (⟨[]⟩ : SWState Nat) "/static/styles.css" 9).2 rfl).2.2 (by decide)

/-- The time span and the `Time TBD` span differ at character 23
(`'"'` vs `'-'`), whatever the formatted time string. -/
theorem timeSpan_ne_tbd (s : String) :
    "<span class=\"event-time\">" ++ s ++ "</span>" ≠ timeTbdHtml := by
  intro h
  have hd : (("<span class=\"event-time\">".data ++ s.data) ++ "</span>".data)[23]? =
      timeTbdHtml.data[23]? := congrArg (fun t => t.data[23]?) h
  rw [List.getElem?_append_left (by simp),
    List.getElem?_append_left (by decide)] at hd
  exact absurd hd (by decide)

/-- C8: an event row's time column shows the `Time TBD` label exactly
when the parsed start time's hour and minute are both zero (whatever the
seconds); otherwise it shows the formatted local start time.  (On the
invalid date both getters are NaN, which is not zero, so a time is
shown.) -/
theorem eventTimeCol_spec (env : JSEnv) (e : Event) :
    (eventTimeCol env e = timeTbdHtml ↔
      (getHoursO (parseLocalDate env e.start_date) = some 0 ∧
        getMinutesO (parseLocalDate env e.start_date) = some 0)) ∧
    (¬ (getHoursO (parseLocalDate env e.start_date) = some 0 ∧
        getMinutesO (parseLocalDate env e.start_date) = some 0) →
      eventTimeCol env e =
        "<span class=\"event-time\">" ++
          escapeHtml (env.formatTime (parseLocalDate env e.start_date)) ++ "</span>") := by
  by_cases hz : getHoursO (parseLocalDate env e.start_date) = some 0 ∧
      getMinutesO (parseLocalDate env e.start_date) = some 0
  · have ht : hasTimeB (parseLocalDate env e.start_date) = false := by
      simp [hasTimeB, hz.1, hz.2]
    constructor
    · simp [eventTimeCol, ht, timeTbdHtml, hz]
    · intro hcon; exact absurd hz hcon
  · have ht : hasTimeB (parseLocalDate env e.start_date) = true := by
      rcases not_and_or.mp hz with h | h <;> simp [hasTimeB, h]
    constructor
    · simp only [eventTimeCol, ht, if_true, reduceIte]
      constructor
      · intro h; exact absurd h (timeSpan_ne_tbd _)
      · intro h; exact absurd h hz
    · intro _
      simp [eventTimeCol, ht]

theorem eventTimeCol_spec_witness :
    eventTimeCol sampleEnv sampleEvent = timeTbdHtml ∧
    eventTimeCol sampleEnv sampleEvent2 =
      "<span class=\"event-time\">" ++ escapeHtml "7:30 PM" ++ "</span>" := by
  constructor
  · exact (eventTimeCol_spec sampleEnv sampleEvent).1.mpr (by constructor <;> decide)
  · exact (eventTimeCol_spec sampleEnv sampleEvent2).2 (by decide)

theorem lookupDay_pushDay_self (k : String) (p : Nat × Event)
    (m : List (String × List (Nat × Event))) :
    lookupDay k (pushDay k p m) = some ((lookupDay k m).getD [] ++ [p]) := by
  induction m with
  | nil => simp [pushDay, lookupDay]
  | cons hd tl ih =>
    obtain ⟨k', v⟩ := hd
    by_cases hk : k' = k
    · subst hk; simp [pushDay, lookupDay]
    · simp [pushDay, lookupDay, hk, ih]

theorem lookupDay_pushDay_ne (k k' : String) (hne : k' ≠ k) (p : Nat × Event)
    (m : List (String × List (Nat × Event))) :
    lookupDay k' (pushDay k p m) = lookupDay k' m := by
  induction m with
  | nil => simp [pushDay, lookupDay, hne.symm]
  | cons hd tl ih =>
    obtain ⟨k'', v⟩ := hd
    by_cases hk : k'' = k
    · subst hk
      simp [pushDay, lookupDay, hne.symm]
    · by_cases hk2 : k'' = k'
      · subst hk2; simp [pushDay, lookupDay, hk]
      · simp [pushDay, lookupDay, hk, hk2, ih]

theorem stepDay_inv (env : JSEnv) (p : Nat × Event) (processed : List (Nat × Event))
    (acc : DayAcc) (h : DayInv env processed acc) :
    DayInv env (processed ++ [p]) (stepDay env acc p) := by
  obtain ⟨h1, h2, h3⟩ := h
  by_cases hl : lookupDay (dayKey env p.2) acc.byDay = none
  · have hfilter : processed.filter (fun q => dayKey env q.2 == dayKey env p.2) = [] := by
      by_contra hne
      have := h1 (dayKey env p.2)
      rw [hl, if_neg hne] at this
      exact absurd this.symm (by simp)
    have hstep : stepDay env acc p =
        { byDay := pushDay (dayKey env p.2) p acc.byDay,
          dayOrder := acc.dayOrder ++ [dayKey env p.2] } := by
      simp [stepDay, hl]
    have hnotmem : dayKey env p.2 ∉ acc.dayOrder := by
      intro hmem; exact (h3 _).mp hmem hl
    refine ⟨?_, ?_, ?_⟩
    · intro k
      rw [hstep]
      by_cases hk : k = dayKey env p.2
      · subst hk
        rw [lookupDay_pushDay_self, hl]
        simp [List.filter_append, hfilter]
      · rw [lookupDay_pushDay_ne _ _ hk, h1 k]
        have hb : (dayKey env p.2 == k) = false := by
          simp; exact fun hcon => hk hcon.symm
        have hfa : List.filter (fun q => dayKey env q.2 == k) (processed ++ [p]) =
            List.filter (fun q => dayKey env q.2 == k) processed := by
          simp [List.filter_append, hb]
        rw [hfa]
    · rw [hstep]
      simp [List.nodup_append, h2, hnotmem]
    · intro k
      rw [hstep]
      by_cases hk : k = dayKey env p.2
      · subst hk
        rw [lookupDay_pushDay_self]
        simp
      · rw [lookupDay_pushDay_ne _ _ hk]
        simp only [List.mem_append, List.mem_singleton]
        constructor
        · intro hm
          rcases hm with hm | hm
          · exact (h3 k).mp hm
          · exact absurd hm hk
        · intro hm; exact Or.inl ((h3 k).mpr hm)
  · obtain ⟨v, hv⟩ := Option.ne_none_iff_exists'.mp hl
    have hfilter : processed.filter (fun q => dayKey env q.2 == dayKey env p.2) ≠ [] := by
      intro hcon
      have := h1 (dayKey env p.2)
      rw [hv, if_pos hcon] at this
      exact absurd this (by simp)
    have hstep : stepDay env acc p =
        { byDay := pushDay (dayKey env p.2) p acc.byDay, dayOrder := acc.dayOrder } := by
      simp [stepDay, hv]
    refine ⟨?_, ?_, ?_⟩
    · intro k
      rw [hstep]
      by_cases hk : k = dayKey env p.2
      · subst hk
        rw [lookupDay_pushDay_self, h1 _, if_neg hfilter]
        simp [List.filter_append, hfilter]
      · rw [lookupDay_pushDay_ne _ _ hk, h1 k]
        have hb : (dayKey env p.2 == k) = false := by
          simp; exact fun hcon => hk hcon.symm
        have hfa : List.filter (fun q => dayKey env q.2 == k) (processed ++ [p]) =
            List.filter (fun q => dayKey env q.2 == k) processed := by
          simp [List.filter_append, hb]
        rw [hfa]
    · rw [hstep]; exact h2
    · intro k
      rw [hstep]
      by_cases hk : k = dayKey env p.2
      · subst hk
        rw [lookupDay_pushDay_self]
        simp only [ne_eq, reduceCtorEq, not_false_eq_true, iff_true]
        exact (h3 _).mpr hl
      · rw [lookupDay_pushDay_ne _ _ hk]
        exact h3 k

theorem foldl_stepDay_inv (env : JSEnv) :
    ∀ (l processed : List (Nat × Event)) (acc : DayAcc),
      DayInv env processed acc → DayInv env (processed ++ l) (l.foldl (stepDay env) acc) := by
  intro l
  induction l with
  | nil => intro processed acc h; simpa using h
  | cons p rest ih =>
    intro processed acc h
    have h' := stepDay_inv env p processed acc h
    have := ih (processed ++ [p]) (stepDay env acc p) h'
    simpa [List.append_assoc] using this

theorem buildDays_inv (env : JSEnv) (events : List Event) :
    DayInv env events.enum (buildDays env events) := by
  have hbase : DayInv env [] ⟨[], []⟩ := by
    refine ⟨fun k => by simp [lookupDay], List.nodup_nil, fun k => by simp [lookupDay]⟩
  simpa [buildDays] using foldl_stepDay_inv env events.enum [] ⟨[], []⟩ hbase

/-- C4: day-grouping of the filtered list is a partition — each
`(index, event)` pair lands in exactly the bucket whose key is the local
`YYYY-MM-DD` date of `parseLocalDate(start_date)`; bucket keys are
emitted in strictly ascending order; and within a bucket the pairs
appear in pipeline (ingestion) order, i.e. each bucket is the in-order
filter of the enumerated input by its key. -/
theorem groupedByDay_partition (env : JSEnv) (events : List Event) :
    List.Pairwise (· < ·) ((groupedByDay env events).map Prod.fst) ∧
    (∀ g ∈ groupedByDay env events,
      g.2 = events.enum.filter (fun p => dayKey env p.2 == g.1)) ∧
    (∀ p ∈ events.enum, ∀ g ∈ groupedByDay env events,
      (p ∈ g.2 ↔ g.1 = dayKey env p.2)) ∧
    (∀ p ∈ events.enum, ∃ g ∈ groupedByDay env events, p ∈ g.2) := by
  obtain ⟨h1, h2, h3⟩ := buildDays_inv env events
  have hbucket : ∀ g ∈ groupedByDay env events,
      g.2 = events.enum.filter (fun p => dayKey env p.2 == g.1) := by
    intro g hg
    obtain ⟨k, hk, rfl⟩ := List.mem_map.mp hg
    have hkmem : k ∈ (buildDays env events).dayOrder :=
      (List.perm_insertionSort (· ≤ ·) (buildDays env events).dayOrder).mem_iff.mp hk
    have hne := (h3 k).mp hkmem
    have := h1 k
    by_cases hfil : events.enum.filter (fun p => dayKey env p.2 == k) = []
    · rw [if_pos hfil] at this; exact absurd this hne
    · rw [if_neg hfil] at this
      simp [this]
  refine ⟨?_, hbucket, ?_, ?_⟩
  · have hmapfst : (groupedByDay env events).map Prod.fst =
        List.insertionSort (· ≤ ·) (buildDays env events).dayOrder := by
      have hcomp : (Prod.fst ∘ fun k : String =>
          (k, (lookupDay k (buildDays env events).byDay).getD [])) = id := rfl
      simp [groupedByDay, List.map_map, hcomp]
    rw [hmapfst]
    have hsorted : List.Sorted (· ≤ ·)
        (List.insertionSort (· ≤ ·) (buildDays env events).dayOrder) :=
      List.sorted_insertionSort _ _
    have hnd : (List.insertionSort (· ≤ ·) (buildDays env events).dayOrder).Nodup :=
      ((List.perm_insertionSort (· ≤ ·) _).nodup_iff).mpr h2
    exact List.Sorted.lt_of_le hsorted hnd
  · intro p hp g hg
    rw [hbucket g hg]
    constructor
    · intro hmem
      have := List.mem_filter.mp hmem
      have hbeq := this.2
      exact (beq_iff_eq.mp (by simpa using hbeq)).symm
    · intro hkey
      refine List.mem_filter.mpr ⟨hp, ?_⟩
      simp [hkey]
  · intro p hp
    have hfil : p ∈ events.enum.filter (fun q => dayKey env q.2 == dayKey env p.2) :=
      List.mem_filter.mpr ⟨hp, by simp⟩
    have hne : events.enum.filter (fun q => dayKey env q.2 == dayKey env p.2) ≠ [] := by
      intro hcon; rw [hcon] at hfil; exact absurd hfil (List.not_mem_nil p)
    have hlk : lookupDay (dayKey env p.2) (buildDays env events).byDay ≠ none := by
      rw [h1 _, if_neg hne]; simp
    have hmem : dayKey env p.2 ∈ (buildDays env events).dayOrder := (h3 _).mpr hlk
    have hmems : dayKey env p.2 ∈
        List.insertionSort (· ≤ ·) (buildDays env events).dayOrder :=
      (List.perm_insertionSort (· ≤ ·) _).mem_iff.mpr hmem
    refine ⟨(dayKey env p.2,
      (lookupDay (dayKey env p.2) (buildDays env events).byDay).getD []), ?_, ?_⟩
    · exact List.mem_map.mpr ⟨dayKey env p.2, hmems, rfl⟩
    · rw [h1 _, if_neg hne]
      simpa using hfil

theorem isDigitC_charNat (c : Char) (h : isDigitC c = true) :
    48 ≤ c.toNat ∧ c.toNat ≤ 57 := by
  simpa [isDigitC, charNat] using h

/-- A decimal digit character is none of the separator characters the
parsing pipeline dispatches on, is not whitespace, and is not a letter. -/
theorem digit_char_facts (c : Char) (h : isDigitC c = true) :
    c ≠ 'T' ∧ c ≠ '-' ∧ c ≠ ':' ∧ c ≠ '+' ∧ c ≠ 'Z' ∧ c ≠ ',' ∧ c ≠ ' ' ∧ c ≠ '.' ∧
    isWsC c = false ∧ isAlphaC c = false := by
  obtain ⟨h1, h2⟩ := isDigitC_charNat c h
  refine ⟨?_, ?_, ?_, ?_, ?_, ?_, ?_, ?_, ?_, ?_⟩
  · intro he; subst he; exact absurd h (by decide)
  · intro he; subst he; exact absurd h (by decide)
  · intro he; subst he; exact absurd h (by decide)
  · intro he; subst he; exact absurd h (by decide)
  · intro he; subst he; exact absurd h (by decide)
  · intro he; subst he; exact absurd h (by decide)
  · intro he; subst he; exact absurd h (by decide)
  · intro he; subst he; exact absurd h (by decide)
  · simp [isWsC, charNat]; omega
  · simp [isAlphaC, charNat]; omega

/-- A letter is not whitespace and not a digit. -/
theorem alpha_char_facts (c : Char) (h : isAlphaC c = true) :
    isWsC c = false ∧ isDigitC c = false := by
  have hr : (65 ≤ c.toNat ∧ c.toNat ≤ 90) ∨ (97 ≤ c.toNat ∧ c.toNat ≤ 122) := by
    simpa [isAlphaC, charNat] using h
  constructor
  · simp [isWsC, charNat]; omega
  · simp [isDigitC, charNat]; omega

theorem digitChar10_isDigit (d : Nat) (h : d < 10) : isDigitC (digitChar10 d) = true := by
  interval_cases d <;> decide

theorem digitsOfAux_fuel (f f' n : Nat) (hf : n < f) (hf' : n < f') :
    digitsOfAux f n = digitsOfAux f' n := by
  induction f generalizing f' n with
  | zero => omega
  | succ f ih =>
    cases f' with
    | zero => omega
    | succ f' =>
      simp only [digitsOfAux]
      by_cases h : n < 10
      · simp [h]
      · have hd : n / 10 < n := Nat.div_lt_self (by omega) (by omega)
        rw [if_neg h, if_neg h, ih f' (n / 10) (by omega) (by omega)]

theorem digitsOf_eq (n : Nat) :
    digitsOf n =
      if n < 10 then [digitChar10 n]
      else digitsOf (n / 10) ++ [digitChar10 (n % 10)] := by
  by_cases h : n < 10
  · simp [digitsOf, digitsOfAux, h]
  · have hd : n / 10 < n := Nat.div_lt_self (by omega) (by omega)
    rw [if_neg h]
    show digitsOfAux (n + 1) n = _
    rw [digitsOfAux]
    rw [if_neg h, digitsOfAux_fuel n (n / 10 + 1) (n / 10) (by omega) (by omega)]
    rfl

theorem digitsOf_all_digit (n : Nat) : ∀ c ∈ digitsOf n, isDigitC c = true := by
  induction n using Nat.strong_induction_on with
  | _ n ih =>
    rw [digitsOf_eq]
    by_cases h : n < 10
    · simp only [h, if_true, reduceIte, List.mem_singleton]
      intro c hc; subst hc; exact digitChar10_isDigit n h
    · simp only [h, if_false, reduceIte]
      intro c hc
      rcases List.mem_append.mp hc with h1 | h1
      · exact ih (n / 10) (Nat.div_lt_self (by omega) (by omega)) c h1
      · rw [List.mem_singleton.mp h1]
        exact digitChar10_isDigit _ (Nat.mod_lt _ (by omega))

theorem digitsOf_ne_nil (n : Nat) : digitsOf n ≠ [] := by
  rw [digitsOf_eq]
  by_cases h : n < 10 <;> simp [h]

theorem digitsOf_len1 (n : Nat) (h : n < 10) : (digitsOf n).length = 1 := by
  rw [digitsOf_eq, if_pos h]; rfl

theorem digitsOf_len2 (n : Nat) (h1 : 10 ≤ n) (h2 : n < 100) :
    (digitsOf n).length = 2 := by
  rw [digitsOf_eq, if_neg (by omega)]
  simp [digitsOf_len1 (n / 10) (by omega)]

theorem digitsOf_len3 (n : Nat) (h1 : 100 ≤ n) (h2 : n < 1000) :
    (digitsOf n).length = 3 := by
  rw [digitsOf_eq, if_neg (by omega)]
  simp [digitsOf_len2 (n / 10) (by omega) (by omega)]

theorem digitsOf_len4 (n : Nat) (h1 : 1000 ≤ n) (h2 : n < 10000) :
    (digitsOf n).length = 4 := by
  rw [digitsOf_eq, if_neg (by omega)]
  simp [digitsOf_len3 (n / 10) (by omega) (by omega)]

theorem pad2_all_digit (n : Nat) : ∀ c ∈ pad2 n, isDigitC c = true := by
  intro c hc
  rw [pad2] at hc
  by_cases h : n < 10
  · rw [if_pos h] at hc
    rcases List.mem_cons.mp hc with h1 | h1
    · subst h1; decide
    · exact digitsOf_all_digit n c h1
  · rw [if_neg h] at hc
    exact digitsOf_all_digit n c hc

theorem pad2_len (n : Nat) (h : n < 100) : (pad2 n).length = 2 := by
  rw [pad2]
  by_cases h10 : n < 10
  · simp [h10, digitsOf_len1 n h10]
  · simp [h10, digitsOf_len2 n (by omega) h]

theorem pad2_ne_nil (n : Nat) : pad2 n ≠ [] := by
  rw [pad2]
  by_cases h10 : n < 10 <;> simp [h10, digitsOf_ne_nil]

theorem span_digits (ds : Str) (c : Char) (r : Str)
    (hds : ∀ x ∈ ds, isDigitC x = true) (hc : isDigitC c = false) :
    (ds ++ c :: r).takeWhile isDigitC = ds ∧
    (ds ++ c :: r).dropWhile isDigitC = c :: r := by
  induction ds with
  | nil => simp [List.takeWhile_cons, List.dropWhile_cons, hc]
  | cons d ds ih =>
    have hd := hds d (List.mem_cons_self d ds)
    have hih := ih (fun x hx => hds x (List.mem_cons_of_mem d hx))
    simp [List.takeWhile_cons, List.dropWhile_cons, hd, hih.1, hih.2]

theorem takeWhile_all_digits (l : Str) (h : ∀ x ∈ l, isDigitC x = true) :
    l.takeWhile isDigitC = l := by
  induction l with
  | nil => rfl
  | cons d ds ih =>
    have hd := h d (List.mem_cons_self d ds)
    simp [List.takeWhile_cons, hd, ih (fun x hx => h x (List.mem_cons_of_mem d hx))]

theorem dropWhile_ws_of_digits (l : Str) (h : ∀ x ∈ l, isDigitC x = true) :
    l.dropWhile isWsC = l := by
  cases l with
  | nil => rfl
  | cons d ds =>
    have := (digit_char_facts d (h d (List.mem_cons_self d ds))).2.2.2.2.2.2.2.2.1
    simp [List.dropWhile_cons, this]

theorem eatWs_space (c : Char) (r : Str) (hc : isWsC c = false) :
    eatWs (' ' :: c :: r) = some (c :: r) := by
  have hsp : isWsC ' ' = true := by decide
  simp [eatWs, List.dropWhile_cons, hsp, hc]

theorem splitOnChar_no_sep (c : Char) (l : Str) (h : ∀ x ∈ l, x ≠ c) :
    splitOnChar c l = [l] := by
  induction l with
  | nil => rfl
  | cons a r ih =>
    have ha := h a (List.mem_cons_self a r)
    rw [splitOnChar, if_neg ha, ih (fun x hx => h x (List.mem_cons_of_mem a hx))]

theorem splitOnChar_sep_append (c : Char) (l1 l2 : Str) (h : ∀ x ∈ l1, x ≠ c) :
    splitOnChar c (l1 ++ c :: l2) = l1 :: splitOnChar c l2 := by
  induction l1 with
  | nil => simp [splitOnChar]
  | cons a r ih =>
    have ha := h a (List.mem_cons_self a r)
    have hih := ih (fun x hx => h x (List.mem_cons_of_mem a hx))
    rw [List.cons_append, splitOnChar, if_neg ha, hih]

theorem replaceFirstSpaceT_no_space (l : Str) (h : ∀ x ∈ l, x ≠ ' ') :
    replaceFirstSpaceT l = l := by
  induction l with
  | nil => rfl
  | cons a r ih =>
    have ha := h a (List.mem_cons_self a r)
    rw [replaceFirstSpaceT, if_neg ha, ih (fun x hx => h x (List.mem_cons_of_mem a hx))]

theorem removeFirstZ_no_z (l : Str) (h : ∀ x ∈ l, x ≠ 'Z') :
    removeFirstZ l = l := by
  induction l with
  | nil => rfl
  | cons a r ih =>
    have ha := h a (List.mem_cons_self a r)
    rw [removeFirstZ, if_neg ha, ih (fun x hx => h x (List.mem_cons_of_mem a hx))]

theorem parseIntJS_digits (l : Str) (hne : l ≠ [])
    (hdig : ∀ c ∈ l, isDigitC c = true) :
    parseIntJS l = some ((digitsVal l : Int)) := by
  obtain ⟨d, ds, rfl⟩ := List.exists_cons_of_ne_nil hne
  have hfacts := digit_char_facts d (hdig d (List.mem_cons_self d ds))
  rw [parseIntJS, dropWhile_ws_of_digits _ hdig]
  simp [hfacts.2.1, hfacts.2.2.2.1, parseIntCore, takeWhile_all_digits _ hdig]

theorem jsNumber_digits (l : Str) (hne : l ≠ [])
    (hdig : ∀ c ∈ l, isDigitC c = true) :
    jsNumber l = some ((digitsVal l : Int)) := by
  obtain ⟨d, ds, rfl⟩ := List.exists_cons_of_ne_nil hne
  have hfacts := digit_char_facts d (hdig d (List.mem_cons_self d ds))
  have hrev : ∀ c ∈ (d :: ds).reverse, isDigitC c = true := by
    intro c hc; exact hdig c (List.mem_reverse.mp hc)
  have hall : ((d :: ds).all isDigitC) = true := List.all_eq_true.mpr hdig
  rw [jsNumber]
  rw [dropWhile_ws_of_digits _ hdig, dropWhile_ws_of_digits _ hrev, List.reverse_reverse]
  simp [hfacts.2.1, hfacts.2.2.2.1, hall]

theorem length_eq_two_str (l : Str) (h : l.length = 2) : ∃ a b, l = [a, b] := by
  rcases l with _ | ⟨a, _ | ⟨b, _ | ⟨c, t⟩⟩⟩ <;> simp_all

theorem length_eq_four_str (l : Str) (h : l.length = 4) :
    ∃ a b c d, l = [a, b, c, d] := by
  rcases l with _ | ⟨a, _ | ⟨b, _ | ⟨c, _ | ⟨d, _ | ⟨e, t⟩⟩⟩⟩⟩ <;> simp_all

theorem isWsC_of_digit (c : Char) (h : isDigitC c = true) : isWsC c = false :=
  (digit_char_facts c h).2.2.2.2.2.2.2.2.1

theorem isWsC_of_alpha (c : Char) (h : isAlphaC c = true) : isWsC c = false :=
  (alpha_char_facts c h).1

theorem isDigitC_of_alpha (c : Char) (h : isAlphaC c = true) : isDigitC c = false :=
  (alpha_char_facts c h).2

/-- Running the RFC-2822 matcher on a rendered
`"Ddd, D Mon YYYY HH:MM:SS GMT"` string recovers exactly the six
groups. -/
theorem rfcMatch_encode (a b c m1 m2 m3 : Char) (dd yd hdl mdl sdl : Str)
    (ha : isAlphaC a = true) (hb : isAlphaC b = true) (hc : isAlphaC c = true)
    (hm1 : isAlphaC m1 = true) (hm2 : isAlphaC m2 = true) (hm3 : isAlphaC m3 = true)
    (hdd : ∀ x ∈ dd, isDigitC x = true) (hddlen : dd.length = 1 ∨ dd.length = 2)
    (hyd : ∀ x ∈ yd, isDigitC x = true) (hydlen : yd.length = 4)
    (hhd : ∀ x ∈ hdl, isDigitC x = true) (hhdlen : hdl.length = 2)
    (hmd : ∀ x ∈ mdl, isDigitC x = true) (hmdlen : mdl.length = 2)
    (hsd : ∀ x ∈ sdl, isDigitC x = true) (hsdlen : sdl.length = 2) :
    rfcMatch (a :: b :: c :: ',' :: ' ' ::
        (dd ++ ' ' :: m1 :: m2 :: m3 :: ' ' ::
          (yd ++ ' ' :: (hdl ++ ':' :: (mdl ++ ':' ::
            (sdl ++ [' ', 'G', 'M', 'T'])))))) =
      some (dd, [m1, m2, m3], yd, hdl, mdl, sdl) := by
  obtain ⟨y0, y1, y2, y3, rfl⟩ := length_eq_four_str yd hydlen
  obtain ⟨p0, p1, rfl⟩ := length_eq_two_str hdl hhdlen
  obtain ⟨q0, q1, rfl⟩ := length_eq_two_str mdl hmdlen
  obtain ⟨t0, t1, rfl⟩ := length_eq_two_str sdl hsdlen
  have hy0 : isDigitC y0 = true := hyd y0 (by simp)
  have hy1 : isDigitC y1 = true := hyd y1 (by simp)
  have hy2 : isDigitC y2 = true := hyd y2 (by simp)
  have hy3 : isDigitC y3 = true := hyd y3 (by simp)
  have hp0 : isDigitC p0 = true := hhd p0 (by simp)
  have hp1 : isDigitC p1 = true := hhd p1 (by simp)
  have hq0 : isDigitC q0 = true := hmd q0 (by simp)
  have hq1 : isDigitC q1 = true := hmd q1 (by simp)
  have ht0 : isDigitC t0 = true := hsd t0 (by simp)
  have ht1 : isDigitC t1 = true := hsd t1 (by simp)
  have hwsm1 : isWsC m1 = false := isWsC_of_alpha m1 hm1
  have hsp : isWsC ' ' = true := by decide
  have hspd : isDigitC ' ' = false := by decide
  have hcold : isDigitC ':' = false := by decide
  have hwsg : isWsC 'G' = false := by decide
  rcases hddlen with hl | hl
  · obtain ⟨d0, rfl⟩ := List.length_eq_one.mp hl
    have hd0 : isDigitC d0 = true := hdd d0 (by simp)
    simp [rfcMatch, eatWs, List.takeWhile_cons, List.dropWhile_cons,
      ha, hb, hc, hm1, hm2, hm3,
      hd0, isWsC_of_digit _ hd0, hy0, hy1, hy2, hy3, isWsC_of_digit _ hy0,
      hp0, hp1, isWsC_of_digit _ hp0, hq0, hq1, ht0, ht1,
      hwsm1, hsp, hspd, hcold, hwsg]
  · obtain ⟨d0, d1, rfl⟩ := length_eq_two_str dd hl
    have hd0 : isDigitC d0 = true := hdd d0 (by simp)
    have hd1 : isDigitC d1 = true := hdd d1 (by simp)
    simp [rfcMatch, eatWs, List.takeWhile_cons, List.dropWhile_cons,
      ha, hb, hc, hm1, hm2, hm3,
      hd0, hd1, isWsC_of_digit _ hd0, hy0, hy1, hy2, hy3, isWsC_of_digit _ hy0,
      hp0, hp1, isWsC_of_digit _ hp0, hq0, hq1, ht0, ht1,
      hwsm1, hsp, hspd, hcold, hwsg]

theorem stringMk_cons_ne_empty (c : Char) (l : Str) : String.mk (c :: l) ≠ "" := by
  intro h
  have hd : (c :: l) = "".data := congrArg String.data h
  exact List.noConfusion hd

/-- The twelve abbreviations are three-letter words. -/
theorem monthAbbrev_explicit (i : Fin 12) :
    ∃ m1 m2 m3, monthAbbrev i = [m1, m2, m3] ∧
      isAlphaC m1 = true ∧ isAlphaC m2 = true ∧ isAlphaC m3 = true := by
  fin_cases i <;> exact ⟨_, _, _, rfl, by decide, by decide, by decide⟩

/-- The `months` table inverts the abbreviation of each month index. -/
theorem monthsLookup_monthAbbrev (i : Fin 12) :
    monthsLookup (String.mk (monthAbbrev i)) = some ((i.val : Int)) := by
  fin_cases i <;> decide

theorem digitsOf_len_day (D : Nat) (h : D < 100) :
    (digitsOf D).length = 1 ∨ (digitsOf D).length = 2 := by
  by_cases h10 : D < 10
  · exact Or.inl (digitsOf_len1 D h10)
  · exact Or.inr (digitsOf_len2 D (by omega) h)

/-- `parseLocalDate` on the rendered RFC-2822-style encoding rebuilds the
date from the literal fields (the `GMT` suffix ignored). -/
theorem parse_rfcEncode (env : JSEnv) (a b c : Char) (D Y h mi s : Nat) (i : Fin 12)
    (ha : isAlphaC a = true) (hb : isAlphaC b = true) (hc : isAlphaC c = true)
    (hD2 : D < 100) (hY1 : 1000 ≤ Y) (hY2 : Y < 10000)
    (hh : h < 100) (hmi : mi < 100) (hs : s < 100) :
    parseLocalDate env (rfcEncode a b c D i Y h mi s) =
      mkJSDate (some ((digitsVal (digitsOf Y) : Int))) (some ((i.val : Int)))
        (some ((digitsVal (digitsOf D) : Int))) (some ((digitsVal (pad2 h) : Int)))
        (some ((digitsVal (pad2 mi) : Int))) (some ((digitsVal (pad2 s) : Int))) := by
  obtain ⟨m1, m2, m3, hmon, hm1, hm2, hm3⟩ := monthAbbrev_explicit i
  have hne : rfcEncode a b c D i Y h mi s ≠ "" := stringMk_cons_ne_empty _ _
  have hmatch : rfcMatch (rfcEncode a b c D i Y h mi s).data =
      some (digitsOf D, [m1, m2, m3], digitsOf Y, pad2 h, pad2 mi, pad2 s) := by
    show rfcMatch (a :: b :: c :: ',' :: ' ' ::
        (digitsOf D ++ ' ' :: (monthAbbrev i ++ ' ' ::
          (digitsOf Y ++ ' ' :: (pad2 h ++ ':' :: (pad2 mi ++ ':' ::
            (pad2 s ++ [' ', 'G', 'M', 'T']))))))) = _
    rw [hmon]
    have := rfcMatch_encode a b c m1 m2 m3 (digitsOf D) (digitsOf Y)
      (pad2 h) (pad2 mi) (pad2 s) ha hb hc hm1 hm2 hm3
      (digitsOf_all_digit D) (digitsOf_len_day D hD2)
      (digitsOf_all_digit Y) (digitsOf_len4 Y hY1 hY2)
      (pad2_all_digit h) (pad2_len h hh)
      (pad2_all_digit mi) (pad2_len mi hmi)
      (pad2_all_digit s) (pad2_len s hs)
    simpa using this
  rw [parseLocalDate, if_neg hne, hmatch]
  simp only [parseIntJS_digits _ (digitsOf_ne_nil D) (digitsOf_all_digit D),
    parseIntJS_digits _ (digitsOf_ne_nil Y) (digitsOf_all_digit Y),
    parseIntJS_digits _ (pad2_ne_nil h) (pad2_all_digit h),
    parseIntJS_digits _ (pad2_ne_nil mi) (pad2_all_digit mi),
    parseIntJS_digits _ (pad2_ne_nil s) (pad2_all_digit s)]
  rw [show String.mk [m1, m2, m3] = String.mk (monthAbbrev i) from by rw [hmon],
    monthsLookup_monthAbbrev]

theorem stringMk_ne_empty (l : Str) (h : l ≠ []) : String.mk l ≠ "" := by
  obtain ⟨c, r, rfl⟩ := List.exists_cons_of_ne_nil h
  exact stringMk_cons_ne_empty c r

theorem digitsVal_cons_zero (l : Str) : digitsVal ('0' :: l) = digitsVal l := rfl

theorem digitsVal_pad2 (n : Nat) : digitsVal (pad2 n) = digitsVal (digitsOf n) := by
  rw [pad2]
  by_cases h : n < 10
  · rw [if_pos h, digitsVal_cons_zero]
  · rw [if_neg h]

/-- The rendered 1-based month number parses back to the month index. -/
theorem digitsVal_pad2_month (i : Fin 12) :
    ((digitsVal (pad2 (i.val + 1)) : Int)) - 1 = (i.val : Int) := by
  fin_cases i <;> decide

/-- `parseLocalDate` on the rendered ISO encoding produces the same
constructor arguments as on the RFC encoding of the same timestamp. -/
theorem parse_isoEncode (env : JSEnv) (D Y h mi s : Nat) (i : Fin 12)
    (_hD2 : D < 100) (hY1 : 1000 ≤ Y) (hY2 : Y < 10000)
    (_hh : h < 100) (_hmi : mi < 100) (_hs : s < 100) :
    parseLocalDate env (isoEncode Y i D h mi s) =
      mkJSDate (some ((digitsVal (digitsOf Y) : Int))) (some ((i.val : Int)))
        (some ((digitsVal (digitsOf D) : Int))) (some ((digitsVal (pad2 h) : Int)))
        (some ((digitsVal (pad2 mi) : Int))) (some ((digitsVal (pad2 s) : Int))) := by
  obtain ⟨y0, y1, y2, y3, hy4⟩ := length_eq_four_str (digitsOf Y) (digitsOf_len4 Y hY1 hY2)
  have hy3 : isDigitC y3 = true := digitsOf_all_digit Y y3 (by rw [hy4]; simp)
  -- the date part and time part around the single 'T'
  have hdpclass : ∀ x ∈ digitsOf Y ++ '-' :: (pad2 (i.val + 1) ++ '-' :: pad2 D),
      isDigitC x = true ∨ x = '-' := by
    intro x hx
    rcases List.mem_append.mp hx with hx | hx
    · exact Or.inl (digitsOf_all_digit Y x hx)
    · rcases List.mem_cons.mp hx with hx | hx
      · exact Or.inr hx
      · rcases List.mem_append.mp hx with hx | hx
        · exact Or.inl (pad2_all_digit _ x hx)
        · rcases List.mem_cons.mp hx with hx | hx
          · exact Or.inr hx
          · exact Or.inl (pad2_all_digit _ x hx)
  have htpclass : ∀ x ∈ pad2 h ++ ':' :: (pad2 mi ++ ':' :: pad2 s),
      isDigitC x = true ∨ x = ':' := by
    intro x hx
    rcases List.mem_append.mp hx with hx | hx
    · exact Or.inl (pad2_all_digit _ x hx)
    · rcases List.mem_cons.mp hx with hx | hx
      · exact Or.inr hx
      · rcases List.mem_append.mp hx with hx | hx
        · exact Or.inl (pad2_all_digit _ x hx)
        · rcases List.mem_cons.mp hx with hx | hx
          · exact Or.inr hx
          · exact Or.inl (pad2_all_digit _ x hx)
  have hdata : (isoEncode Y i D h mi s).data =
      (digitsOf Y ++ '-' :: (pad2 (i.val + 1) ++ '-' :: pad2 D)) ++ 'T' ::
        (pad2 h ++ ':' :: (pad2 mi ++ ':' :: pad2 s)) := by
    show digitsOf Y ++ '-' ::
        (pad2 (i.val + 1) ++ '-' :: (pad2 D ++ 'T' ::
          (pad2 h ++ ':' :: (pad2 mi ++ ':' :: pad2 s)))) = _
    simp [List.append_assoc]
  have hallclass : ∀ x ∈ (isoEncode Y i D h mi s).data,
      isDigitC x = true ∨ x = '-' ∨ x = 'T' ∨ x = ':' := by
    intro x hx
    rw [hdata] at hx
    rcases List.mem_append.mp hx with hx | hx
    · rcases hdpclass x hx with hq | hq
      · exact Or.inl hq
      · exact Or.inr (Or.inl hq)
    · rcases List.mem_cons.mp hx with hx | hx
      · exact Or.inr (Or.inr (Or.inl hx))
      · rcases htpclass x hx with hq | hq
        · exact Or.inl hq
        · exact Or.inr (Or.inr (Or.inr hq))
  have hnospace : ∀ x ∈ (isoEncode Y i D h mi s).data, x ≠ ' ' := by
    intro x hx
    rcases hallclass x hx with hq | hq | hq | hq
    · exact (digit_char_facts x hq).2.2.2.2.2.2.1
    all_goals (subst hq; decide)
  have hnoplus : ∀ x ∈ (isoEncode Y i D h mi s).data, x ≠ '+' := by
    intro x hx
    rcases hallclass x hx with hq | hq | hq | hq
    · exact (digit_char_facts x hq).2.2.2.1
    all_goals (subst hq; decide)
  have hnoz : ∀ x ∈ (isoEncode Y i D h mi s).data, x ≠ 'Z' := by
    intro x hx
    rcases hallclass x hx with hq | hq | hq | hq
    · exact (digit_char_facts x hq).2.2.2.2.1
    all_goals (subst hq; decide)
  have hdpnoT : ∀ x ∈ digitsOf Y ++ '-' :: (pad2 (i.val + 1) ++ '-' :: pad2 D),
      x ≠ 'T' := by
    intro x hx
    rcases hdpclass x hx with hq | hq
    · exact (digit_char_facts x hq).1
    · subst hq; decide
  have htpnoT : ∀ x ∈ pad2 h ++ ':' :: (pad2 mi ++ ':' :: pad2 s), x ≠ 'T' := by
    intro x hx
    rcases htpclass x hx with hq | hq
    · exact (digit_char_facts x hq).1
    · subst hq; decide
  have hne : isoEncode Y i D h mi s ≠ "" :=
    stringMk_ne_empty _ (by simp [digitsOf_ne_nil Y])
  have hnomatch : rfcMatch (isoEncode Y i D h mi s).data = none := by
    show rfcMatch (digitsOf Y ++ '-' ::
        (pad2 (i.val + 1) ++ '-' :: (pad2 D ++ 'T' ::
          (pad2 h ++ ':' :: (pad2 mi ++ ':' :: pad2 s))))) = none
    rw [hy4]
    simp [rfcMatch, (digit_char_facts y3 hy3).2.2.2.2.2.1]
  have hclean : removeFirstZ (((splitOnChar '+'
      (replaceFirstSpaceT (isoEncode Y i D h mi s).data)).headD [])) =
      (isoEncode Y i D h mi s).data := by
    rw [replaceFirstSpaceT_no_space _ hnospace, splitOnChar_no_sep '+' _ hnoplus]
    simp only [List.headD_cons]
    exact removeFirstZ_no_z _ hnoz
  have hsplitT : splitOnChar 'T' ((isoEncode Y i D h mi s).data) =
      [digitsOf Y ++ '-' :: (pad2 (i.val + 1) ++ '-' :: pad2 D),
        pad2 h ++ ':' :: (pad2 mi ++ ':' :: pad2 s)] := by
    rw [hdata, splitOnChar_sep_append 'T' _ _ hdpnoT, splitOnChar_no_sep 'T' _ htpnoT]
  have hnomdash1 : ∀ x ∈ digitsOf Y, x ≠ '-' :=
    fun x hx => (digit_char_facts x (digitsOf_all_digit Y x hx)).2.1
  have hnomdash2 : ∀ x ∈ pad2 (i.val + 1), x ≠ '-' :=
    fun x hx => (digit_char_facts x (pad2_all_digit _ x hx)).2.1
  have hnomdash3 : ∀ x ∈ pad2 D, x ≠ '-' :=
    fun x hx => (digit_char_facts x (pad2_all_digit _ x hx)).2.1
  have hsplitD : splitOnChar '-'
      (digitsOf Y ++ '-' :: (pad2 (i.val + 1) ++ '-' :: pad2 D)) =
      [digitsOf Y, pad2 (i.val + 1), pad2 D] := by
    rw [splitOnChar_sep_append '-' _ _ hnomdash1,
      splitOnChar_sep_append '-' _ _ hnomdash2,
      splitOnChar_no_sep '-' _ hnomdash3]
  have hnocolon1 : ∀ x ∈ pad2 h, x ≠ ':' :=
    fun x hx => (digit_char_facts x (pad2_all_digit _ x hx)).2.2.1
  have hnocolon2 : ∀ x ∈ pad2 mi, x ≠ ':' :=
    fun x hx => (digit_char_facts x (pad2_all_digit _ x hx)).2.2.1
  have hnocolon3 : ∀ x ∈ pad2 s, x ≠ ':' :=
    fun x hx => (digit_char_facts x (pad2_all_digit _ x hx)).2.2.1
  have hsplitC : splitOnChar ':' (pad2 h ++ ':' :: (pad2 mi ++ ':' :: pad2 s)) =
      [pad2 h, pad2 mi, pad2 s] := by
    rw [splitOnChar_sep_append ':' _ _ hnocolon1,
      splitOnChar_sep_append ':' _ _ hnocolon2,
      splitOnChar_no_sep ':' _ hnocolon3]
  have hdpne : digitsOf Y ++ '-' :: (pad2 (i.val + 1) ++ '-' :: pad2 D) ≠ [] := by
    simp [digitsOf_ne_nil Y]
  rw [parseLocalDate, if_neg hne, hnomatch]
  simp only [hclean, hsplitT, List.headD_cons, List.getElem?_cons_zero,
    List.getElem?_cons_succ, if_neg hdpne, hsplitD, hsplitC, List.map_cons,
    List.map_nil, Option.getD_some,
    jsNumber_digits _ (digitsOf_ne_nil Y) (digitsOf_all_digit Y),
    jsNumber_digits _ (pad2_ne_nil (i.val + 1)) (pad2_all_digit (i.val + 1)),
    jsNumber_digits _ (pad2_ne_nil D) (pad2_all_digit D),
    jsNumber_digits _ (pad2_ne_nil h) (pad2_all_digit h),
    jsNumber_digits _ (pad2_ne_nil mi) (pad2_all_digit mi),
    jsNumber_digits _ (pad2_ne_nil s) (pad2_all_digit s),
    Option.map_some', jsOrZero]
  rw [digitsVal_pad2_month i, digitsVal_pad2 D]

/-- C2: for every timestamp with fields `(Y, M, D, h, m, s)` (hours,
minutes, seconds rendered as two digits), the RFC-2822-style encoding
`"Ddd, D Mon YYYY HH:MM:SS GMT"` and the ISO encoding
`"YYYY-MM-DDTHH:MM:SS"` parse via `parseLocalDate` to the same `Date`
value — the zone suffix is ignored and no timezone conversion applied;
in particular `"Wed, 18 Feb 2026 19:30:00 GMT"` parses to local
2026-02-18 19:30:00 unshifted. -/
theorem rfc_iso_parse_agree (env : JSEnv) (a b c : Char) (D Y h mi s : Nat) (i : Fin 12)
    (ha : isAlphaC a = true) (hb : isAlphaC b = true) (hc : isAlphaC c = true)
    (hD : D < 100) (hY1 : 1000 ≤ Y) (hY2 : Y < 10000)
    (hh : h < 100) (hmi : mi < 100) (hs : s < 100) :
    parseLocalDate env (rfcEncode a b c D i Y h mi s) =
      parseLocalDate env (isoEncode Y i D h mi s) ∧
    (getFullYearO (parseLocalDate env "Wed, 18 Feb 2026 19:30:00 GMT") = some 2026 ∧
      getMonthO (parseLocalDate env "Wed, 18 Feb 2026 19:30:00 GMT") = some 1 ∧
      getDateO (parseLocalDate env "Wed, 18 Feb 2026 19:30:00 GMT") = some 18 ∧
      getHoursO (parseLocalDate env "Wed, 18 Feb 2026 19:30:00 GMT") = some 19 ∧
      getMinutesO (parseLocalDate env "Wed, 18 Feb 2026 19:30:00 GMT") = some 30 ∧
      getSecondsO (parseLocalDate env "Wed, 18 Feb 2026 19:30:00 GMT") = some 0) := by
  constructor
  · rw [parse_rfcEncode env a b c D Y h mi s i ha hb hc hD hY1 hY2 hh hmi hs,
      parse_isoEncode env D Y h mi s i hD hY1 hY2 hh hmi hs]
  · exact ⟨rfl, rfl, rfl, rfl, rfl, rfl⟩

theorem rfc_iso_parse_agree_witness :
    parseLocalDate sampleEnv (rfcEncode 'W' 'e' 'd' 18 ⟨1, by omega⟩ 2026 19 30 0) =
      parseLocalDate sampleEnv (isoEncode 2026 ⟨1, by omega⟩ 18 19 30 0) ∧
    getHoursO (parseLocalDate sampleEnv "Wed, 18 Feb 2026 19:30:00 GMT") = some 19 :=
  ⟨(rfc_iso_parse_agree sampleEnv 'W' 'e' 'd' 18 2026 19 30 0 ⟨1, by omega⟩
      (by decide) (by decide) (by decide) (by decide) (by decide) (by decide)
      (by decide) (by decide) (by decide)).1,
    (rfc_iso_parse_agree sampleEnv 'W' 'e' 'd' 18 2026 19 30 0 ⟨1, by omega⟩
      (by decide) (by decide) (by decide) (by decide) (by decide) (by decide)
      (by decide) (by decide) (by decide)).2.2.2.2.1⟩
